import Mathlib

/-!
# Verification of the Optic_Lab optical simulation pipeline

Shallow embedding of the optical core of the Optic_Lab repository
(`src/utils/physics.ts`, `src/utils/imageProcessing.ts`,
`src/simulation.worker.ts`, the worker embedded in `src/App.tsx`, and the
alternate worker in `src/unnamed/part_000`), together with theorems settling
the frozen claims about it.

Numeric convention: JavaScript floating-point arithmetic is modelled by exact
arithmetic, `ℚ` where the code only uses field operations and comparisons,
`ℝ` where transcendental functions (`Math.exp`, `Math.cos`, `Math.sin`,
`Math.pow`, `Math.sqrt`) appear.
-/

/-- Aperture shape tags, from `ApertureType` in `src/types.ts`
(`src/unnamed/part_005`). -/
inductive ApertureType where
  | PINHOLE | ZONE_PLATE | PHOTON_SIEVE | SLIT | CROSS | SLIT_ARRAY
  | RANDOM | ANNULAR | MULTI_DOT | STAR | WAVES | YIN_YANG | URA
  | FREEFORM | FIBONACCI | FRACTAL | SIERPINSKI_TRIANGLE | LITHO_OPC
  | LISSAJOUS | SPIRAL | ROSETTE | CUSTOM
deriving DecidableEq, Repr

/-- The fields of `ApertureConfig` (src/types.ts) used by the optical core.
Optional TypeScript fields become `Option`. -/
structure ApertureConfig where
  type : ApertureType
  diameter : ℚ
  innerDiameter : Option ℚ := none
  zones : Option ℕ := none
  seed : Option ℕ := none
  usePolychromatic : Bool := false
  useVignetting : Bool := false
  renderDiffraction : Bool := true
  slitWidth : Option ℚ := none
  slitHeight : Option ℚ := none
  count : Option ℕ := none
  spread : Option ℚ := none
  uraRank : Option ℕ := none
  iteration : Option ℕ := none
  rotation : Option ℚ := none

/-- The fields of `CameraConfig` (src/types.ts) used by the optical core. -/
structure CameraConfig where
  focalLength : ℚ
  sensorWidth : ℚ
  sensorHeight : ℚ
  wavelength : ℚ
  iso : ℚ

/-- JavaScript `a || d` on an optional numeric field: `undefined` and `0` are
falsy and fall back to the default. -/
def jsOr (a : Option ℚ) (d : ℚ) : ℚ :=
  match a with
  | none => d
  | some q => if q = 0 then d else q

/-- JavaScript `a || d` on an optional integer field. -/
def jsOrNat (a : Option ℕ) (d : ℕ) : ℕ :=
  match a with
  | none => d
  | some n => if n = 0 then d else n

/-- JavaScript `a || d` when `a` is a required numeric field (falsy only at 0). -/
def jsOrQ (a d : ℚ) : ℚ := if a = 0 then d else a

/-! ## PSF normalization (`generateKernel`, src/utils/physics.ts lines 783-795,
and the worker PSF block, src/App.tsx lines 709-726)

After propagation both paths compute the per-cell intensity
`magSq = real^2 + imag^2` and the total; `physics.ts` divides by the total
only when it is positive (and otherwise returns the raw, all-zero
intensities), while the App worker falls back to a unit delta at the grid
center. The complex field is a pair of arrays; we model it as a list of
(real, imag) pairs. -/

/-- Per-cell intensity `field.real[i]**2 + field.imag[i]**2`. -/
def intensityOf (field : List (ℚ × ℚ)) : List ℚ :=
  field.map (fun c => c.1 ^ 2 + c.2 ^ 2)

/-- Total energy: the running `sum += magSq` of `generateKernel`. -/
def totalEnergy (field : List (ℚ × ℚ)) : ℚ :=
  (intensityOf field).sum

/-- The PSF returned by `generateKernel` (src/utils/physics.ts lines 783-795):
intensities, divided by the total when `sum > 0`, returned unnormalized
otherwise. -/
def generateKernelPSF (field : List (ℚ × ℚ)) : List ℚ :=
  let output := intensityOf field
  let sum := output.sum
  if 0 < sum then output.map (fun v => v / sum) else output

/-- Flat `N*N` delta kernel written by the App worker fallback:
`psf.real[N/2 * N + N/2] = 1.0` on an all-zero intensity array
(src/App.tsx lines 723-726). -/
def deltaList (n : ℕ) : List ℚ :=
  (List.range (n * n)).map (fun i => if i = n / 2 * n + n / 2 then 1 else 0)

/-- The PSF built by the worker in `src/App.tsx` (lines 709-726): normalized
intensities when `totalEnergy > 0`, otherwise the center delta. `field` is
the propagated field on the `n × n` grid, flattened row-major. -/
def workerPSF (field : List (ℚ × ℚ)) (n : ℕ) : List ℚ :=
  let output := intensityOf field
  let sum := output.sum
  if 0 < sum then output.map (fun v => v / sum) else deltaList n

/-- Sum of a list after dividing every element by `s`. -/
theorem list_sum_map_div (l : List ℚ) (s : ℚ) :
    (l.map (fun v => v / s)).sum = l.sum / s := by
  induction l with
  | nil => simp
  | cons a t ih => simp [ih, add_div]

/-- C1. If the propagated field has strictly positive total intensity, every
cell of the PSF returned by `generateKernel` is that cell's squared field
magnitude divided by the total, and the PSF's cells sum to 1. -/
theorem generateKernel_psf_normalized (field : List (ℚ × ℚ))
    (h : 0 < totalEnergy field) :
    (∀ i c, field.get? i = some c →
      (generateKernelPSF field).get? i =
        some ((c.1 ^ 2 + c.2 ^ 2) / totalEnergy field)) ∧
    (generateKernelPSF field).sum = 1 := by
  have hpsf : generateKernelPSF field =
      (intensityOf field).map (fun v => v / totalEnergy field) := by
    unfold generateKernelPSF totalEnergy at *
    simp only [if_pos h]
  constructor
  · intro i c hc
    rw [hpsf]
    rw [List.get?_map]
    unfold intensityOf
    rw [List.get?_map, hc]
    rfl
  · rw [hpsf, list_sum_map_div]
    exact div_self (ne_of_gt h)

/-- Witness for C1 on the concrete field `[(1,0),(0,1),(1,1),(0,0)]`:
total energy `3`, every PSF cell is its intensity over 3, and the cells
sum to 1. -/
theorem generateKernel_psf_normalized_witness :
    0 < totalEnergy [(1, 0), (0, 1), (1, 1), (0, 0)] ∧
    (generateKernelPSF [(1, 0), (0, 1), (1, 1), (0, 0)]).sum = 1 := by
  have h : 0 < totalEnergy [((1 : ℚ), (0 : ℚ)), (0, 1), (1, 1), (0, 0)] := by
    norm_num [totalEnergy, intensityOf]
  exact ⟨h, (generateKernel_psf_normalized _ h).2⟩

/-! ## Convolution engine

`convolveImageRGB` (src/utils/imageProcessing.ts lines 43-138) is the sparse
spatial strategy: PSF cells above the threshold `0.00001` become taps
`(dx, dy, val)` with `dx = x - half`, `half = floor(kSize/2)`; each output
pixel sums `val * src[neighbor]` over taps whose neighbor lies inside the
image, multiplies by the exposure, clamps at 255 and stores into a
`Uint8ClampedArray` (which clamps below 0 and rounds to nearest, ties to
even).

The frequency-domain strategy is the worker embedded in `src/App.tsx`
(lines 738-760): `fftShift` the PSF, forward 2-D FFT of PSF and channel,
elementwise complex multiply, inverse 2-D FFT, real part. Grids and images
are modelled as functions `ℕ → ℕ → ℚ` (column, row), meaningful below the
stated width/height. -/

/-- The sparse-kernel threshold `0.00001` of `toSparse`
(src/utils/imageProcessing.ts line 65). -/
def sparseThreshold : ℚ := 1 / 100000

/-- Accumulated channel value of the sparse spatial convolution at pixel
`(x, y)`: the sum `r += src[sidx] * kp.val` of
`convolveImageRGB` over the taps of `toSparse raw`, skipping taps whose
source pixel falls outside the `W × H` image. -/
def sparseAcc (K : ℕ) (psf : ℕ → ℕ → ℚ) (W H : ℕ) (src : ℕ → ℕ → ℚ)
    (x y : ℕ) : ℚ :=
  ∑ ky ∈ Finset.range K, ∑ kx ∈ Finset.range K,
    if sparseThreshold < psf kx ky then
      (let sx : ℤ := (x : ℤ) + kx - ((K / 2 : ℕ) : ℤ)
       let sy : ℤ := (y : ℤ) + ky - ((K / 2 : ℕ) : ℤ)
       if 0 ≤ sx ∧ sx < W ∧ 0 ≤ sy ∧ sy < H then
         psf kx ky * src sx.toNat sy.toNat
       else 0)
    else 0

/-- Rounding performed by a JavaScript `Uint8ClampedArray` store: clamp to
`[0, 255]`, then round to the nearest integer, ties to even. -/
def jsClampRound8 (q : ℚ) : ℤ :=
  let c := max 0 (min 255 q)
  let f := Int.floor c
  if c - f < 1 / 2 then f
  else if 1 / 2 < c - f then f + 1
  else if f % 2 = 0 then f else f + 1

/-- Stored output channel of `convolveImageRGB` at one pixel:
`dst[didx] = Math.min(255, r * exposure)` written into a
`Uint8ClampedArray`. -/
def sparseStored (K : ℕ) (psf : ℕ → ℕ → ℚ) (W H : ℕ) (src : ℕ → ℕ → ℚ)
    (exposure : ℚ) (x y : ℕ) : ℤ :=
  jsClampRound8 (min 255 (sparseAcc K psf W H src x y * exposure))

/-- Modelled from the spec: the frequency-domain convolution strategy —
2-D FFT of the `fftShift`-centered PSF and of the channel, elementwise
complex multiplication, inverse 2-D FFT, real part (§4.4, and the worker in
`src/App.tsx` lines 738-760). The spec states this strategy is exact, and
declares the power-of-two FFT pair a dependency rather than a deliverable
(§1); its exact result is the circular convolution of the channel with the
center-shifted PSF, which this definition writes directly:
`out(x, y) = Σ_k psf(k) · src((x + N/2 − kx) mod N, (y + N/2 − ky) mod N)`. -/
def freqConvolveSpec (N : ℕ) (psf src : ℕ → ℕ → ℚ) (x y : ℕ) : ℚ :=
  ∑ ky ∈ Finset.range N, ∑ kx ∈ Finset.range N,
    psf kx ky * src ((x + N / 2 + (N - kx)) % N) ((y + N / 2 + (N - ky)) % N)

/-- Mean of a grid function over `W × H` pixels. -/
def gridMean (W H : ℕ) (f : ℕ → ℕ → ℚ) : ℚ :=
  (∑ y ∈ Finset.range H, ∑ x ∈ Finset.range W, f x y) / (W * H)

/-- The center delta kernel as a grid function: weight 1 at `(N/2, N/2)`,
0 elsewhere. -/
def deltaFn (N : ℕ) (kx ky : ℕ) : ℚ :=
  if kx = N / 2 ∧ ky = N / 2 then 1 else 0

/-- Row-major flat indices `j * n + i` with `i < n` determine column and row
uniquely. -/
theorem flat_index_inj {n i j i' j' : ℕ} (hi : i < n) (hi' : i' < n)
    (h : j * n + i = j' * n + i') : i = i' ∧ j = j' := by
  have hn : 0 < n := lt_of_le_of_lt (Nat.zero_le i) hi
  have h1 : (j * n + i) % n = i := by
    rw [Nat.add_comm, Nat.add_mul_mod_self_right, Nat.mod_eq_of_lt hi]
  have h2 : (j' * n + i') % n = i' := by
    rw [Nat.add_comm, Nat.add_mul_mod_self_right, Nat.mod_eq_of_lt hi']
  have hii : i = i' := by rw [← h1, h, h2]
  refine ⟨hii, ?_⟩
  subst hii
  have := Nat.add_right_cancel h
  exact Nat.eq_of_mul_eq_mul_right hn this

/-- C3 counterexample: a degenerate aperture whose mask rasterizes to the
all-zero field on the 2×2 grid. `generateKernelPSF` (src/utils/physics.ts)
returns the all-zero PSF, not the unit delta at the grid center that the
claim requires, so convolution with it is not an identity copy. -/
theorem generateKernel_zero_energy_not_delta :
    generateKernelPSF (List.replicate 4 ((0 : ℚ), (0 : ℚ))) = [0, 0, 0, 0] ∧
    deltaList 2 = [0, 0, 0, 1] ∧
    ([0, 0, 0, 0] : List ℚ) ≠ [0, 0, 0, 1] := by
  refine ⟨?_, ?_, ?_⟩
  · norm_num [generateKernelPSF, intensityOf, List.replicate]
  · norm_num [deltaList, List.range_succ]
  · simp

/-- C3 amended: the zero-energy delta fallback lives in the worker embedded
in `src/App.tsx` (lines 723-726), not in `generateKernel`: on an all-zero
field the worker PSF is the unit-weight delta at the grid center, that flat
array agrees cell-by-cell with the center delta kernel, and frequency-domain
convolution with the center delta copies every pixel of any image
unchanged. `generateKernelPSF` instead returns the all-zero kernel on a
zero-energy field. -/
theorem worker_zero_energy_delta_identity (n : ℕ) (hn : 0 < n)
    (he : n % 2 = 0) :
    workerPSF (List.replicate (n * n) ((0 : ℚ), (0 : ℚ))) n = deltaList n ∧
    (∀ kx ky, kx < n → ky < n →
      (deltaList n).getD (ky * n + kx) 0 = deltaFn n kx ky) ∧
    (∀ (img : ℕ → ℕ → ℚ) (x y : ℕ), x < n → y < n →
      freqConvolveSpec n (deltaFn n) img x y = img x y) ∧
    (∀ field, totalEnergy field = 0 →
      generateKernelPSF field = intensityOf field) := by
  refine ⟨?_, ?_, ?_, ?_⟩
  · unfold workerPSF intensityOf
    norm_num [List.map_replicate, List.sum_replicate]
  · intro kx ky hkx hky
    unfold deltaList deltaFn
    have hidx : ky * n + kx < n * n := by
      calc ky * n + kx < ky * n + n := by omega
        _ = (ky + 1) * n := by ring
        _ ≤ n * n := Nat.mul_le_mul_right n hky
    rw [List.getD_eq_getElem?_getD, List.getElem?_map,
      List.getElem?_range hidx]
    have hhalf : n / 2 < n := Nat.div_lt_self hn (by norm_num)
    by_cases hc : ky * n + kx = n / 2 * n + n / 2
    · obtain ⟨h1, h2⟩ := flat_index_inj hkx hhalf hc
      simp [hc, h1, h2]
    · have hne : ¬(kx = n / 2 ∧ ky = n / 2) := by
        rintro ⟨h1, h2⟩
        subst h1; subst h2
        exact hc rfl
      simp [hc, hne]
  · intro img x y hx hy
    unfold freqConvolveSpec
    have hhalf : n / 2 < n := Nat.div_lt_self hn (by norm_num)
    rw [Finset.sum_eq_single (n / 2)]
    · rw [Finset.sum_eq_single (n / 2)]
      · have hxy : ∀ z : ℕ, z < n → (z + n / 2 + (n - n / 2)) % n = z := by
          intro z hz
          have : z + n / 2 + (n - n / 2) = z + n := by omega
          rw [this, Nat.add_mod_right, Nat.mod_eq_of_lt hz]
        rw [hxy x hx, hxy y hy]
        simp [deltaFn]
      · intro b _ hb
        simp [deltaFn, hb]
      · intro hmem
        exact absurd (Finset.mem_range.mpr hhalf) hmem
    · intro b _ hb
      apply Finset.sum_eq_zero
      intro kx _
      simp [deltaFn, hb]
    · intro hmem
      exact absurd (Finset.mem_range.mpr hhalf) hmem
  · intro field hzero
    unfold generateKernelPSF
    unfold totalEnergy at hzero
    simp [hzero]

/-- Witness for C3's amended theorem at `n = 2`: the worker fallback on the
zero field over the 2×2 grid is the center delta, and convolving the
constant-7 image with the center delta returns 7 at pixel (1, 1). -/
theorem worker_zero_energy_delta_identity_witness :
    workerPSF (List.replicate 4 ((0 : ℚ), (0 : ℚ))) 2 = deltaList 2 ∧
    freqConvolveSpec 2 (deltaFn 2) (fun _ _ => 7) 1 1 = 7 := by
  have h := worker_zero_energy_delta_identity 2 (by norm_num) (by norm_num)
  exact ⟨h.1, h.2.2.1 (fun _ _ => 7) 1 1 (by norm_num) (by norm_num)⟩

/-- Reindexing a `range N` sum by the modular reflection `k ↦ (N - k) % N`
(the map sending each spatial frequency to its negation on the periodic
grid). -/
theorem sum_range_reflectMod (N : ℕ) (g : ℕ → ℚ) :
    ∑ k ∈ Finset.range N, g k = ∑ k ∈ Finset.range N, g ((N - k) % N) := by
  have hmem : ∀ a ∈ Finset.range N, (N - a) % N ∈ Finset.range N := by
    intro a ha
    rcases Nat.eq_zero_or_pos N with rfl | hN
    · simpa using ha
    · exact Finset.mem_range.mpr (Nat.mod_lt _ hN)
  have hinv : ∀ a ∈ Finset.range N, (N - (N - a) % N) % N = a := by
    intro a ha
    have ha' := Finset.mem_range.mp ha
    rcases Nat.eq_zero_or_pos a with rfl | ha0
    · simp [Nat.mod_self]
    · have h1 : (N - a) % N = N - a := Nat.mod_eq_of_lt (by omega)
      rw [h1]
      have h2 : N - (N - a) = a := by omega
      rw [h2, Nat.mod_eq_of_lt ha']
  exact Finset.sum_nbij' (fun k => (N - k) % N) (fun k => (N - k) % N)
    hmem hmem hinv hinv (fun a ha => by rw [hinv a ha])

/-- On an even grid, the circular-convolution source index of the reflected
tap coincides with the sparse strategy's (in-bounds) source index. -/
theorem reflect_index_eq (N x k : ℕ) (he : N % 2 = 0) (hk : k < N)
    (h1 : N / 2 ≤ x + k) (h2 : x + k < N + N / 2) :
    (x + N / 2 + (N - (N - k) % N)) % N = x + k - N / 2 := by
  rcases Nat.eq_zero_or_pos k with rfl | hk0
  · have hz : N - (N - 0) % N = N := by simp [Nat.mod_self]
    rw [hz]
    rw [Nat.add_mod_right]
    have hx : x + N / 2 = (x - N / 2) + N := by omega
    rw [hx, Nat.add_mod_right, Nat.mod_eq_of_lt (by omega)]
    omega
  · have hlt : N - k < N := by omega
    rw [Nat.mod_eq_of_lt hlt]
    have hkk : N - (N - k) = k := by omega
    rw [hkk]
    have hx : x + N / 2 + k = (x + k - N / 2) + N := by omega
    rw [hx, Nat.add_mod_right, Nat.mod_eq_of_lt (by omega)]

/-- C5 counterexample: on the 2×2 grid with the normalized corner PSF
(single cell of weight 1 at (0,0)) and the uniform 255 image, the sparse
spatial strategy (out-of-bounds taps skipped) stores 255 only at pixel
(1,1), while the frequency-domain strategy (circular convolution) gives 255
everywhere; the mean absolute per-channel difference is 765/4, far above
1/255. The PSF sums to 1, so both strategies receive the same normalized
PSF and image. -/
theorem convolution_strategies_disagree :
    gridMean 2 2 (fun x y =>
      |((sparseStored 2 (fun kx ky => if kx = 0 ∧ ky = 0 then 1 else 0) 2 2
          (fun _ _ => 255) 1 x y : ℤ) : ℚ) -
        freqConvolveSpec 2 (fun kx ky => if kx = 0 ∧ ky = 0 then 1 else 0)
          (fun _ _ => 255) x y|) = 765 / 4 ∧
    ¬ gridMean 2 2 (fun x y =>
      |((sparseStored 2 (fun kx ky => if kx = 0 ∧ ky = 0 then 1 else 0) 2 2
          (fun _ _ => 255) 1 x y : ℤ) : ℚ) -
        freqConvolveSpec 2 (fun kx ky => if kx = 0 ∧ ky = 0 then 1 else 0)
          (fun _ _ => 255) x y|) < 1 / 255 ∧
    (∑ ky ∈ Finset.range 2, ∑ kx ∈ Finset.range 2,
      (if kx = 0 ∧ ky = 0 then (1 : ℚ) else 0)) = 1 := by
  have hmain : gridMean 2 2 (fun x y =>
      |((sparseStored 2 (fun kx ky => if kx = 0 ∧ ky = 0 then 1 else 0) 2 2
          (fun _ _ => 255) 1 x y : ℤ) : ℚ) -
        freqConvolveSpec 2 (fun kx ky => if kx = 0 ∧ ky = 0 then 1 else 0)
          (fun _ _ => 255) x y|) = 765 / 4 := by
    norm_num [gridMean, sparseStored, sparseAcc, freqConvolveSpec,
      jsClampRound8, sparseThreshold, Finset.sum_range_succ]
  refine ⟨hmain, by rw [hmain]; norm_num, by
    norm_num [Finset.sum_range_succ]⟩

/-- C5 amended: the two strategies agree exactly at every pixel all of whose
taps stay inside the image, provided every nonzero PSF cell is above the
sparse threshold (so the two strategies see the same support) and the PSF is
centrosymmetric on the periodic grid (true of physical diffraction PSFs;
the frequency path convolves while the sparse path correlates, and the
reflection symmetry identifies the two). Near the boundary they differ —
the sparse strategy skips taps while the frequency strategy wraps
circularly — which is what the counterexample exhibits. -/
theorem sparse_freq_agree_in_bounds (N : ℕ) (psf src : ℕ → ℕ → ℚ)
    (x y : ℕ) (he : N % 2 = 0)
    (hsym : ∀ kx ky, kx < N → ky < N →
      psf kx ky = psf ((N - kx) % N) ((N - ky) % N))
    (hth : ∀ kx ky, kx < N → ky < N →
      psf kx ky = 0 ∨ sparseThreshold < psf kx ky)
    (hbound : ∀ kx ky, kx < N → ky < N → sparseThreshold < psf kx ky →
      N / 2 ≤ x + kx ∧ x + kx < N + N / 2 ∧
      N / 2 ≤ y + ky ∧ y + ky < N + N / 2) :
    sparseAcc N psf N N src x y = freqConvolveSpec N psf src x y := by
  unfold sparseAcc freqConvolveSpec
  rw [sum_range_reflectMod N (fun ky => ∑ kx ∈ Finset.range N,
    psf kx ky * src ((x + N / 2 + (N - kx)) % N) ((y + N / 2 + (N - ky)) % N))]
  have hinner : ∀ ky ∈ Finset.range N,
      (∑ kx ∈ Finset.range N, psf kx ((N - ky) % N) *
        src ((x + N / 2 + (N - kx)) % N)
          ((y + N / 2 + (N - (N - ky) % N)) % N)) =
      ∑ kx ∈ Finset.range N, psf ((N - kx) % N) ((N - ky) % N) *
        src ((x + N / 2 + (N - (N - kx) % N)) % N)
          ((y + N / 2 + (N - (N - ky) % N)) % N) := by
    intro ky _
    exact sum_range_reflectMod N (fun kx => psf kx ((N - ky) % N) *
      src ((x + N / 2 + (N - kx)) % N) ((y + N / 2 + (N - (N - ky) % N)) % N))
  rw [Finset.sum_congr rfl hinner]
  apply Finset.sum_congr rfl
  intro ky hky
  apply Finset.sum_congr rfl
  intro kx hkx
  have hkx' := Finset.mem_range.mp hkx
  have hky' := Finset.mem_range.mp hky
  rw [← hsym kx ky hkx' hky']
  rcases hth kx ky hkx' hky' with h0 | hpos
  · rw [h0]
    have : ¬ sparseThreshold < (0 : ℚ) := by norm_num [sparseThreshold]
    rw [if_neg this, zero_mul]
  · obtain ⟨hb1, hb2, hb3, hb4⟩ := hbound kx ky hkx' hky' hpos
    rw [if_pos hpos]
    simp only []
    have hcond : (0 : ℤ) ≤ (x : ℤ) + kx - ((N / 2 : ℕ) : ℤ) ∧
        (x : ℤ) + kx - ((N / 2 : ℕ) : ℤ) < (N : ℤ) ∧
        (0 : ℤ) ≤ (y : ℤ) + ky - ((N / 2 : ℕ) : ℤ) ∧
        (y : ℤ) + ky - ((N / 2 : ℕ) : ℤ) < (N : ℤ) := by
      refine ⟨?_, ?_, ?_, ?_⟩ <;> omega
    rw [if_pos hcond]
    have htx : ((x : ℤ) + kx - ((N / 2 : ℕ) : ℤ)).toNat = x + kx - N / 2 := by
      omega
    have hty : ((y : ℤ) + ky - ((N / 2 : ℕ) : ℤ)).toNat = y + ky - N / 2 := by
      omega
    rw [htx, hty, reflect_index_eq N x kx he hkx' hb1 hb2,
      reflect_index_eq N y ky he hky' hb3 hb4]

/-- Witness for C5's amended theorem: on the 2×2 grid with the center delta
PSF (centrosymmetric, single above-threshold cell) and the image
`src x y = 10x + y`, pixel (0, 0) has all taps in bounds and the two
strategies agree there. -/
theorem sparse_freq_agree_in_bounds_witness :
    sparseAcc 2 (deltaFn 2) 2 2 (fun sx sy => 10 * sx + sy) 1 1 =
      freqConvolveSpec 2 (deltaFn 2) (fun sx sy => 10 * sx + sy) 1 1 := by
  apply sparse_freq_agree_in_bounds 2 (deltaFn 2) _ 1 1 (by norm_num)
  · intro kx ky hkx hky
    interval_cases kx <;> interval_cases ky <;> norm_num [deltaFn]
  · intro kx ky hkx hky
    interval_cases kx <;> interval_cases ky <;>
      norm_num [deltaFn, sparseThreshold]
  · intro kx ky hkx hky hpos
    interval_cases kx <;> interval_cases ky <;>
      exact ⟨by norm_num, by norm_num, by norm_num, by norm_num⟩

/-- C6 counterexample: the uniform image with value 100 on the 2×2 grid,
convolved with the normalized corner PSF at exposure 1. The frequency-domain
strategy returns mean 100 = V, but the sparse spatial strategy skips the
corner tap wherever it falls out of bounds and its stored output has mean
25, off by 75 — the claim that both strategies preserve the mean fails. -/
theorem uniform_mean_not_preserved_by_sparse :
    gridMean 2 2 (fun x y =>
      ((sparseStored 2 (fun kx ky => if kx = 0 ∧ ky = 0 then 1 else 0) 2 2
        (fun _ _ => 100) 1 x y : ℤ) : ℚ)) = 25 ∧
    gridMean 2 2 (fun x y =>
      freqConvolveSpec 2 (fun kx ky => if kx = 0 ∧ ky = 0 then 1 else 0)
        (fun _ _ => 100) x y) = 100 ∧
    (∑ ky ∈ Finset.range 2, ∑ kx ∈ Finset.range 2,
      (if kx = 0 ∧ ky = 0 then (1 : ℚ) else 0)) = 1 ∧
    ¬ |(25 : ℚ) - 100| < 1 := by
  refine ⟨?_, ?_, ?_, by norm_num⟩
  · norm_num [gridMean, sparseStored, sparseAcc, jsClampRound8,
      sparseThreshold, Finset.sum_range_succ]
  · norm_num [gridMean, freqConvolveSpec, Finset.sum_range_succ]
  · norm_num [Finset.sum_range_succ]

/-- C6 amended: with a PSF whose cells sum to 1, the frequency-domain
strategy maps a uniform image of value V to V at every pixel; the sparse
strategy does so exactly at the pixels where every above-threshold tap
falls inside the image, provided every nonzero cell is above the sparse
threshold — near the boundary skipped taps lower the output, which is what
the counterexample exhibits. An integer channel value stored through the
`Uint8ClampedArray` at exposure 1 is stored exactly, and the mean of a
uniform grid is its value. -/
theorem uniform_image_mean_preserved (N : ℕ) (psf : ℕ → ℕ → ℚ) (V : ℚ)
    (hsum : ∑ ky ∈ Finset.range N, ∑ kx ∈ Finset.range N, psf kx ky = 1) :
    (∀ x y, freqConvolveSpec N psf (fun _ _ => V) x y = V) ∧
    (∀ (W H x y : ℕ),
      (∀ kx ky, kx < N → ky < N →
        psf kx ky = 0 ∨ sparseThreshold < psf kx ky) →
      (∀ kx ky, kx < N → ky < N → sparseThreshold < psf kx ky →
        (0 : ℤ) ≤ (x : ℤ) + kx - ((N / 2 : ℕ) : ℤ) ∧
        (x : ℤ) + kx - ((N / 2 : ℕ) : ℤ) < (W : ℤ) ∧
        (0 : ℤ) ≤ (y : ℤ) + ky - ((N / 2 : ℕ) : ℤ) ∧
        (y : ℤ) + ky - ((N / 2 : ℕ) : ℤ) < (H : ℤ)) →
      sparseAcc N psf W H (fun _ _ => V) x y = V) ∧
    (∀ m : ℕ, m ≤ 255 → jsClampRound8 (m : ℚ) = m) ∧
    (∀ W H : ℕ, 0 < W → 0 < H → gridMean W H (fun _ _ => V) = V) := by
  refine ⟨?_, ?_, ?_, ?_⟩
  · intro x y
    unfold freqConvolveSpec
    simp only [← Finset.sum_mul]
    rw [hsum, one_mul]
  · intro W H x y hth hb
    unfold sparseAcc
    have hcong : ∀ ky ∈ Finset.range N, ∀ kx ∈ Finset.range N,
        (if sparseThreshold < psf kx ky then
          (let sx : ℤ := (x : ℤ) + kx - ((N / 2 : ℕ) : ℤ)
           let sy : ℤ := (y : ℤ) + ky - ((N / 2 : ℕ) : ℤ)
           if 0 ≤ sx ∧ sx < W ∧ 0 ≤ sy ∧ sy < H then
             psf kx ky * (fun _ _ => V) sx.toNat sy.toNat
           else 0)
        else 0) = psf kx ky * V := by
      intro ky hky kx hkx
      have hkx' := Finset.mem_range.mp hkx
      have hky' := Finset.mem_range.mp hky
      rcases hth kx ky hkx' hky' with h0 | hpos
      · rw [h0]
        have : ¬ sparseThreshold < (0 : ℚ) := by norm_num [sparseThreshold]
        rw [if_neg this, zero_mul]
      · obtain ⟨h1, h2, h3, h4⟩ := hb kx ky hkx' hky' hpos
        rw [if_pos hpos]
        simp only []
        rw [if_pos ⟨h1, h2, h3, h4⟩]
    calc (∑ ky ∈ Finset.range N, ∑ kx ∈ Finset.range N,
        if sparseThreshold < psf kx ky then
          (let sx : ℤ := (x : ℤ) + kx - ((N / 2 : ℕ) : ℤ)
           let sy : ℤ := (y : ℤ) + ky - ((N / 2 : ℕ) : ℤ)
           if 0 ≤ sx ∧ sx < W ∧ 0 ≤ sy ∧ sy < H then
             psf kx ky * (fun _ _ => V) sx.toNat sy.toNat
           else 0)
        else 0)
        = ∑ ky ∈ Finset.range N, ∑ kx ∈ Finset.range N, psf kx ky * V := by
          exact Finset.sum_congr rfl (fun ky hky =>
            Finset.sum_congr rfl (fun kx hkx => hcong ky hky kx hkx))
      _ = V := by simp only [← Finset.sum_mul]; rw [hsum, one_mul]
  · intro m hm
    unfold jsClampRound8
    have hmax : max 0 (min 255 ((m : ℚ))) = (m : ℚ) := by
      rw [min_eq_right (by exact_mod_cast hm), max_eq_right (by positivity)]
    rw [hmax]
    simp only [Int.floor_natCast]
    norm_num
  · intro W H hW hH
    unfold gridMean
    simp only [Finset.sum_const, Finset.card_range, nsmul_eq_mul]
    have hW' : (W : ℚ) ≠ 0 := Nat.cast_ne_zero.mpr (by omega)
    have hH' : (H : ℚ) ≠ 0 := Nat.cast_ne_zero.mpr (by omega)
    field_simp
    ring

/-- Witness for C6's amended theorem: center delta PSF on the 2×2 grid
(cells sum to 1), uniform value 9. The frequency-domain output at (0, 1)
is 9, and the sparse output at the interior pixel (2, 2) of a 5×5 image
is 9. -/
theorem uniform_image_mean_preserved_witness :
    freqConvolveSpec 2 (deltaFn 2) (fun _ _ => 9) 0 1 = 9 ∧
    sparseAcc 2 (deltaFn 2) 5 5 (fun _ _ => 9) 2 2 = 9 := by
  have hsum : ∑ ky ∈ Finset.range 2, ∑ kx ∈ Finset.range 2,
      deltaFn 2 kx ky = 1 := by
    norm_num [Finset.sum_range_succ, deltaFn]
  have h := uniform_image_mean_preserved 2 (deltaFn 2) 9 hsum
  refine ⟨h.1 0 1, h.2.1 5 5 2 2 ?_ ?_⟩
  · intro kx ky hkx hky
    interval_cases kx <;> interval_cases ky <;>
      norm_num [deltaFn, sparseThreshold]
  · intro kx ky hkx hky hpos
    interval_cases kx <;> interval_cases ky <;>
      exact ⟨by norm_num, by norm_num, by norm_num, by norm_num⟩

/-! ## Angular-spectrum transfer function

`generateKernel` (src/utils/physics.ts lines 754-778) and
`generateFresnelKernel` (src/unnamed/part_000 lines 161-185) apply, at each
frequency coordinate `(fx, fy)`, `val = 1 - (λfx)² - (λfy)²`; propagating
components (`val ≥ 0`) are rotated by `exp(i·k·z·√val)` and evanescent ones
(`val < 0`) are attenuated by the real factor `exp(-k·z·√(-val))`,
`k = 2π/λ`. The worker embedded in `src/App.tsx` (lines 687-701) uses the
same `val` and rotation but sets evanescent components to zero. -/

/-- `val = 1.0 - (lambdaMm*fx)**2 - (lambdaMm*fy)**2` of the propagation
loops. -/
noncomputable def asmVal (lam fx fy : ℝ) : ℝ :=
  1 - (lam * fx) ^ 2 - (lam * fy) ^ 2

/-- One application of the transfer function of `generateKernel`
(src/utils/physics.ts lines 762-776) to the complex value `c` at frequency
coordinate `(fx, fy)`. -/
noncomputable def physTransferStep (lam z fx fy : ℝ) (c : ℝ × ℝ) : ℝ × ℝ :=
  let k := 2 * Real.pi / lam
  let val := asmVal lam fx fy
  if 0 ≤ val then
    let phase := k * z * Real.sqrt val
    (c.1 * Real.cos phase - c.2 * Real.sin phase,
     c.1 * Real.sin phase + c.2 * Real.cos phase)
  else
    let decay := k * z * Real.sqrt (-val)
    (c.1 * Real.exp (-decay), c.2 * Real.exp (-decay))

/-- One application of the transfer function of the worker embedded in
`src/App.tsx` (lines 687-701): same propagating branch, but the evanescent
branch stores `(0, 0)`. -/
noncomputable def appTransferStep (lam z fx fy : ℝ) (c : ℝ × ℝ) : ℝ × ℝ :=
  let k := 2 * Real.pi / lam
  let val := asmVal lam fx fy
  if 0 ≤ val then
    let phase := k * z * Real.sqrt val
    (c.1 * Real.cos phase - c.2 * Real.sin phase,
     c.1 * Real.sin phase + c.2 * Real.cos phase)
  else
    (0, 0)

/-- C2 counterexample: at `λ = 1`, `z = 1`, `(fx, fy) = (2, 0)` the
coordinate is evanescent (`val = -3 < 0`), yet the repository's propagation
step in the App worker maps the nonzero field value `(1, 0)` to `(0, 0)` —
it is not multiplied by any factor `exp(t)` (all of which are nonzero), and
the nonzero evanescent component does not remain nonzero. -/
theorem app_worker_zeroes_evanescent :
    asmVal 1 2 0 < 0 ∧
    appTransferStep 1 1 2 0 (1, 0) = (0, 0) ∧
    ((1 : ℝ), (0 : ℝ)) ≠ (0, 0) ∧
    ∀ t : ℝ, (Real.exp t * 1, Real.exp t * 0) ≠ ((0 : ℝ), 0) := by
  have hval : asmVal 1 2 0 < 0 := by norm_num [asmVal]
  refine ⟨hval, ?_, ?_, ?_⟩
  · unfold appTransferStep
    rw [if_neg (not_le.mpr hval)]
  · intro h
    have := congrArg Prod.fst h
    norm_num at this
  · intro t h
    have h1 := congrArg Prod.fst h
    simp only [mul_one] at h1
    exact Real.exp_ne_zero t h1

/-- C2 amended: the claimed evanescent behavior holds in the CPU kernel
paths (`generateKernel` in src/utils/physics.ts and `generateFresnelKernel`
in src/unnamed/part_000): for `val < 0` the complex value is multiplied by
the real factor `exp(-k·z·√(-val))`, which is positive — no phase rotation
— so a nonzero component remains nonzero; the worker embedded in
`src/App.tsx` instead replaces every evanescent component by zero. -/
theorem physics_evanescent_attenuation (lam z fx fy : ℝ) (c : ℝ × ℝ)
    (hval : asmVal lam fx fy < 0) :
    physTransferStep lam z fx fy c =
      (Real.exp (-(2 * Real.pi / lam * z * Real.sqrt (-asmVal lam fx fy))) * c.1,
       Real.exp (-(2 * Real.pi / lam * z * Real.sqrt (-asmVal lam fx fy))) * c.2) ∧
    0 < Real.exp (-(2 * Real.pi / lam * z * Real.sqrt (-asmVal lam fx fy))) ∧
    (c ≠ (0, 0) → physTransferStep lam z fx fy c ≠ (0, 0)) ∧
    appTransferStep lam z fx fy c = (0, 0) := by
  have hneg := not_le.mpr hval
  have hstep : physTransferStep lam z fx fy c =
      (Real.exp (-(2 * Real.pi / lam * z * Real.sqrt (-asmVal lam fx fy))) * c.1,
       Real.exp (-(2 * Real.pi / lam * z * Real.sqrt (-asmVal lam fx fy))) * c.2) := by
    unfold physTransferStep
    rw [if_neg hneg]
    exact Prod.ext (mul_comm _ _) (mul_comm _ _)
  have hpos : 0 < Real.exp
      (-(2 * Real.pi / lam * z * Real.sqrt (-asmVal lam fx fy))) :=
    Real.exp_pos _
  refine ⟨hstep, hpos, ?_, ?_⟩
  · intro hc habs
    rw [hstep] at habs
    apply hc
    have h1 := congrArg Prod.fst habs
    have h2 := congrArg Prod.snd habs
    simp only at h1 h2
    have hc1 : c.1 = 0 := by
      rcases mul_eq_zero.mp h1 with h | h
      · exact absurd h (ne_of_gt hpos)
      · exact h
    have hc2 : c.2 = 0 := by
      rcases mul_eq_zero.mp h2 with h | h
      · exact absurd h (ne_of_gt hpos)
      · exact h
    exact Prod.ext hc1 hc2
  · unfold appTransferStep
    rw [if_neg hneg]

/-- Witness for C2's amended theorem at `λ = z = 1`, `(fx, fy) = (2, 0)`,
field value `(1, 0)`: the physics.ts step keeps it nonzero while the App
worker step zeroes it. -/
theorem physics_evanescent_attenuation_witness :
    physTransferStep 1 1 2 0 (1, 0) ≠ (0, 0) ∧
    appTransferStep 1 1 2 0 (1, 0) = (0, 0) := by
  have hval : asmVal 1 2 0 < 0 := by norm_num [asmVal]
  have hc : ((1 : ℝ), (0 : ℝ)) ≠ (0, 0) := by
    intro h
    have := congrArg Prod.fst h
    norm_num at this
  have h := physics_evanescent_attenuation 1 1 2 0 (1, 0) hval
  exact ⟨h.2.2.1 hc, h.2.2.2⟩

/-! ## Radiometric post-processing

The CPU worker (src/simulation.worker.ts lines 26-36) runs, after
`convolveImageRGB`: `applyVignetting` when `aperture.useVignetting`, then
`applySensorNoise` when `camera.iso > 100` — and nothing further. The worker
embedded in `src/App.tsx` (lines 763-789) instead runs, after its FFT
convolution: per-channel exposure scaling, the ACES filmic curve, a clamp to
[0, 1], gamma encoding with exponent 1/2.2 and scaling by 255 — and neither
vignetting nor noise. -/

/-- A post-processing stage of the pipeline, used to record which stages a
path executes and in which order. -/
inductive PostStage where
  | vignette | noise | toneMap | gammaEncode
deriving DecidableEq, Repr

/-- Stages executed after convolution by the CPU worker
(src/simulation.worker.ts lines 28-34). -/
def cpuPostStages (useVignetting : Bool) (iso : ℚ) : List PostStage :=
  (if useVignetting then [PostStage.vignette] else []) ++
  (if 100 < iso then [PostStage.noise] else [])

/-- Stages executed after convolution by the worker embedded in
`src/App.tsx` (lines 763-789). -/
def appPostStages : List PostStage :=
  [PostStage.toneMap, PostStage.gammaEncode]

/-- Modelled from the claim: the stage sequence C7 asserts for every
pipeline run — optional vignetting, optional sensor noise, then ACES tone
mapping, then gamma encoding. -/
def claimedPostStages (useVignetting applyNoise : Bool) : List PostStage :=
  (if useVignetting then [PostStage.vignette] else []) ++
  (if applyNoise then [PostStage.noise] else []) ++
  [PostStage.toneMap, PostStage.gammaEncode]

/-- The ACES helper `aces(x)` of the worker embedded in `src/App.tsx`
(lines 767-770). -/
noncomputable def acesFilm (x : ℝ) : ℝ :=
  (x * (2.51 * x + 0.03)) / (x * (2.43 * x + 0.59) + 0.14)

/-- Per-channel tone-map-and-gamma output of the worker embedded in
`src/App.tsx` (lines 772-789): exposure scaling, ACES, clamp to [0, 1],
gamma 1/2.2, scale by 255. -/
noncomputable def workerToneGamma (exposure x : ℝ) : ℝ :=
  let r1 := x * exposure
  let r2 := acesFilm r1
  let r3 := (max 0 (min 1 r2)) ^ ((1 : ℝ) / 2.2)
  r3 * 255

/-- C7 counterexample: a run with vignetting enabled and ISO 200. The CPU
worker applies vignetting and noise but no tone mapping or gamma encode;
the App worker applies tone mapping and gamma but neither vignetting nor
noise. Neither matches the claimed four-stage sequence. -/
theorem no_path_runs_claimed_stage_sequence :
    cpuPostStages true 200 ≠ claimedPostStages true true ∧
    appPostStages ≠ claimedPostStages true true := by
  have h1 : cpuPostStages true 200 = [PostStage.vignette, PostStage.noise] := by
    norm_num [cpuPostStages]
  have h2 : claimedPostStages true true =
      [PostStage.vignette, PostStage.noise, PostStage.toneMap,
        PostStage.gammaEncode] := by
    norm_num [claimedPostStages]
  rw [h1, h2]
  refine ⟨by decide, by decide⟩

/-- C7 amended: the four claimed stages are split across the two pipeline
variants. The CPU worker's post-processor is exactly optional vignetting
followed by optional sensor noise (ISO > 100) and never tone-maps or
gamma-encodes; the App worker's post-processor is exactly ACES tone mapping
followed by gamma encoding — its per-channel output equals the claimed
formula `255 · clamp01(x·e·(2.51·x·e+0.03)/(x·e·(2.43·x·e+0.59)+0.14))^(1/2.2)`
and lies in [0, 255] — and it never vignettes or adds noise. -/
theorem post_processing_stage_split (v : Bool) (iso : ℚ) (exposure x : ℝ) :
    PostStage.toneMap ∉ cpuPostStages v iso ∧
    PostStage.gammaEncode ∉ cpuPostStages v iso ∧
    PostStage.vignette ∉ appPostStages ∧
    PostStage.noise ∉ appPostStages ∧
    workerToneGamma exposure x =
      255 * (max 0 (min 1 ((x * exposure * (2.51 * (x * exposure) + 0.03)) /
        (x * exposure * (2.43 * (x * exposure) + 0.59) + 0.14)))) ^
        ((1 : ℝ) / 2.2) ∧
    0 ≤ workerToneGamma exposure x ∧ workerToneGamma exposure x ≤ 255 := by
  have hbase0 : (0 : ℝ) ≤ max 0 (min 1 (acesFilm (x * exposure))) :=
    le_max_left 0 _
  have hbase1 : max 0 (min 1 (acesFilm (x * exposure))) ≤ 1 := by
    apply max_le (by norm_num)
    exact min_le_left 1 _
  have hpow0 : (0 : ℝ) ≤
      (max 0 (min 1 (acesFilm (x * exposure)))) ^ ((1 : ℝ) / 2.2) :=
    Real.rpow_nonneg hbase0 _
  have hpow1 : (max 0 (min 1 (acesFilm (x * exposure)))) ^ ((1 : ℝ) / 2.2) ≤ 1 :=
    Real.rpow_le_one hbase0 hbase1 (by norm_num)
  refine ⟨?_, ?_, ?_, ?_, ?_, ?_, ?_⟩
  · unfold cpuPostStages
    rcases v with _ | _ <;> rcases lt_or_le (100 : ℚ) iso with h | h <;>
      simp [h, not_lt.mpr, le_of_lt]
  · unfold cpuPostStages
    rcases v with _ | _ <;> rcases lt_or_le (100 : ℚ) iso with h | h <;>
      simp [h, not_lt.mpr, le_of_lt]
  · decide
  · decide
  · unfold workerToneGamma acesFilm
    rw [mul_comm]
  · unfold workerToneGamma
    exact mul_nonneg hpow0 (by norm_num)
  · unfold workerToneGamma
    nlinarith [hpow0, hpow1]

/-! ## Simulation window sizing

`generateKernel` (src/utils/physics.ts lines 694-709) computes
`diffractiveSize = 40·λ·z / (d || 0.1)` with `d = aperture.diameter` — the
overall diameter for every shape — a geometric size, and takes the maximum.
The alternate worker's `generateFresnelKernel` (src/unnamed/part_000 lines
103-122) instead derives a per-shape `featureSize` (slit width for
slit/cross/slit-array/waves/yin-yang/litho shapes, diameter/rank for URA,
diameter otherwise) and divides by that. -/

/-- `diffractiveSize` of `generateKernel` (src/utils/physics.ts line 700). -/
def generateKernelDiffractive (a : ApertureConfig) (lamMm z : ℚ) : ℚ :=
  40 * lamMm * z / jsOrQ a.diameter 0.1

/-- `geometricSize` of `generateKernel` (src/utils/physics.ts line 701). -/
def generateKernelGeometric (a : ApertureConfig) : ℚ :=
  jsOrQ a.diameter 1 * 1.5

/-- `effectiveGeo` of `generateKernel` (src/utils/physics.ts lines 704-707). -/
def generateKernelEffectiveGeo (a : ApertureConfig) : ℚ :=
  if a.type = ApertureType.SLIT_ARRAY then
    (jsOrNat a.count 2 : ℚ) * jsOr a.spread 1 * 1.5
  else generateKernelGeometric a

/-- `physSize` of `generateKernel` (src/utils/physics.ts line 709). -/
def generateKernelPhysSize (a : ApertureConfig) (lamMm z : ℚ) : ℚ :=
  max (generateKernelEffectiveGeo a) (generateKernelDiffractive a lamMm z)

/-- `featureSize` of `generateFresnelKernel` (src/unnamed/part_000 lines
105-110). -/
def fresnelFeatureSize (a : ApertureConfig) : ℚ :=
  if a.type = ApertureType.SLIT ∨ a.type = ApertureType.CROSS ∨
      a.type = ApertureType.SLIT_ARRAY ∨ a.type = ApertureType.WAVES ∨
      a.type = ApertureType.YIN_YANG ∨ a.type = ApertureType.LITHO_OPC then
    jsOr a.slitWidth 0.1
  else if a.type = ApertureType.URA then
    a.diameter / (jsOrNat a.uraRank 13 : ℚ)
  else a.diameter

/-- `diffractiveSize` of `generateFresnelKernel` (src/unnamed/part_000
line 114). -/
def fresnelDiffractive (a : ApertureConfig) (lamMm z : ℚ) : ℚ :=
  40 * lamMm * z / jsOrQ (fresnelFeatureSize a) 0.1

/-- `geometricSize` of `generateFresnelKernel` (src/unnamed/part_000 lines
117-120). -/
def fresnelGeometric (a : ApertureConfig) : ℚ :=
  if a.type = ApertureType.SLIT_ARRAY then
    (jsOrNat a.count 2 : ℚ) * jsOr a.spread 1 * 1.5 + a.diameter
  else jsOrQ a.diameter 1 * 1.5

/-- `physSize` of `generateFresnelKernel` (src/unnamed/part_000 line 122). -/
def fresnelPhysSize (a : ApertureConfig) (lamMm z : ℚ) : ℚ :=
  max (fresnelGeometric a) (fresnelDiffractive a lamMm z)

/-- Modelled from the claim (C4): the characteristic minimum feature size —
the slit width for slit/cross/grating-like shapes, diameter/rank for coded
apertures (URA), the overall diameter otherwise. -/
def claimFeatureSize (a : ApertureConfig) : ℚ :=
  if a.type = ApertureType.SLIT ∨ a.type = ApertureType.CROSS ∨
      a.type = ApertureType.SLIT_ARRAY then
    jsOr a.slitWidth 0.1
  else if a.type = ApertureType.URA then
    a.diameter / (jsOrNat a.uraRank 13 : ℚ)
  else a.diameter

/-- Modelled from the claim (C4): the diffraction-driven window
`40 × λ(mm) × focalLength(mm) / featureSize(mm)`. -/
def claimDiffractive (a : ApertureConfig) (lamMm z : ℚ) : ℚ :=
  40 * lamMm * z / claimFeatureSize a

/-- `jsOr` never returns 0 when its default is nonzero. -/
theorem jsOr_ne_zero (a : Option ℚ) (d : ℚ) (hd : d ≠ 0) : jsOr a d ≠ 0 := by
  cases a with
  | none => simpa [jsOr] using hd
  | some q =>
    by_cases hq : q = 0
    · simpa [jsOr, hq] using hd
    · simpa [jsOr, hq] using hq

/-- C4 counterexample: the slit aperture with diameter 5 mm and slit width
0.1 mm at λ = 550 nm (0.00055 mm) and focal length 50 mm. The claim's
diffraction window is `40·λ·z / slitWidth = 11` mm, but `generateKernel`
divides by the overall diameter and computes 0.22 mm, so its physical
window is the geometric 7.5 mm instead of the claimed 11 mm. -/
theorem diffractive_window_uses_diameter :
    generateKernelDiffractive
      { type := ApertureType.SLIT, diameter := 5,
        slitWidth := some 0.1 } (11 / 20000) 50 = 11 / 50 ∧
    claimDiffractive
      { type := ApertureType.SLIT, diameter := 5,
        slitWidth := some 0.1 } (11 / 20000) 50 = 11 ∧
    ((11 : ℚ) / 50) ≠ 11 ∧
    generateKernelPhysSize
      { type := ApertureType.SLIT, diameter := 5,
        slitWidth := some 0.1 } (11 / 20000) 50 = 15 / 2 ∧
    ((15 : ℚ) / 2) ≠ 11 := by
  refine ⟨?_, ?_, by norm_num, ?_, by norm_num⟩
  · norm_num [generateKernelDiffractive, jsOrQ]
  · norm_num [claimDiffractive, claimFeatureSize, jsOr]
  · norm_num [generateKernelPhysSize, generateKernelEffectiveGeo,
      generateKernelGeometric, generateKernelDiffractive, jsOrQ]
    rw [if_neg (by decide)]
    exact max_eq_left (by norm_num)

/-- C4 amended: the claimed feature-size rule is implemented by
`generateFresnelKernel` in the alternate worker (src/unnamed/part_000) —
whose feature size also covers waves/yin-yang/litho shapes by slit width —
while `generateKernel` in src/utils/physics.ts divides by the overall
diameter (0.1 fallback) for every shape; both take the physical window as
the maximum of the geometric and diffractive windows. -/
theorem diffraction_window_feature_size_split (a : ApertureConfig)
    (lamMm z : ℚ) :
    (a.type = ApertureType.SLIT ∨ a.type = ApertureType.CROSS ∨
      a.type = ApertureType.SLIT_ARRAY →
      fresnelFeatureSize a = jsOr a.slitWidth 0.1 ∧
      fresnelDiffractive a lamMm z = claimDiffractive a lamMm z) ∧
    (a.type = ApertureType.URA → a.diameter ≠ 0 →
      fresnelFeatureSize a = a.diameter / (jsOrNat a.uraRank 13 : ℚ) ∧
      fresnelDiffractive a lamMm z = claimDiffractive a lamMm z) ∧
    (a.type = ApertureType.PINHOLE → a.diameter ≠ 0 →
      fresnelFeatureSize a = a.diameter ∧
      generateKernelDiffractive a lamMm z = claimDiffractive a lamMm z ∧
      fresnelDiffractive a lamMm z = claimDiffractive a lamMm z) ∧
    generateKernelDiffractive a lamMm z =
      40 * lamMm * z / jsOrQ a.diameter 0.1 ∧
    generateKernelPhysSize a lamMm z =
      max (generateKernelEffectiveGeo a) (generateKernelDiffractive a lamMm z) ∧
    fresnelPhysSize a lamMm z =
      max (fresnelGeometric a) (fresnelDiffractive a lamMm z) := by
  refine ⟨?_, ?_, ?_, rfl, rfl, rfl⟩
  · intro ht
    have hfeat : fresnelFeatureSize a = jsOr a.slitWidth 0.1 := by
      unfold fresnelFeatureSize
      rcases ht with h | h | h <;> rw [if_pos] <;> simp [h]
    have hclaim : claimFeatureSize a = jsOr a.slitWidth 0.1 := by
      unfold claimFeatureSize
      rw [if_pos ht]
    have hne : jsOr a.slitWidth 0.1 ≠ 0 := jsOr_ne_zero _ _ (by norm_num)
    refine ⟨hfeat, ?_⟩
    unfold fresnelDiffractive claimDiffractive
    rw [hfeat, hclaim]
    unfold jsOrQ
    rw [if_neg hne]
  · intro ht hd
    have hrank : (jsOrNat a.uraRank 13 : ℚ) ≠ 0 := by
      unfold jsOrNat
      cases a.uraRank with
      | none => norm_num
      | some n =>
        by_cases hn : n = 0
        · simp [hn]
        · simp [hn]
    have hfeat : fresnelFeatureSize a =
        a.diameter / (jsOrNat a.uraRank 13 : ℚ) := by
      unfold fresnelFeatureSize
      rw [if_neg (by simp [ht]), if_pos ht]
    have hclaim : claimFeatureSize a =
        a.diameter / (jsOrNat a.uraRank 13 : ℚ) := by
      unfold claimFeatureSize
      rw [if_neg (by simp [ht]), if_pos ht]
    have hne : a.diameter / (jsOrNat a.uraRank 13 : ℚ) ≠ 0 :=
      div_ne_zero hd hrank
    refine ⟨hfeat, ?_⟩
    unfold fresnelDiffractive claimDiffractive
    rw [hfeat, hclaim]
    unfold jsOrQ
    rw [if_neg hne]
  · intro ht hd
    have hfeat : fresnelFeatureSize a = a.diameter := by
      unfold fresnelFeatureSize
      rw [if_neg (by simp [ht]), if_neg (by simp [ht])]
    have hclaim : claimFeatureSize a = a.diameter := by
      unfold claimFeatureSize
      rw [if_neg (by simp [ht]), if_neg (by simp [ht])]
    refine ⟨hfeat, ?_, ?_⟩
    · unfold generateKernelDiffractive claimDiffractive
      rw [hclaim]
      unfold jsOrQ
      rw [if_neg hd]
    · unfold fresnelDiffractive claimDiffractive
      rw [hfeat, hclaim]
      unfold jsOrQ
      rw [if_neg hd]

/-- Witness for C4's amended theorem on the slit configuration of the
counterexample: the alternate worker's diffraction window equals the
claimed `40·λ·z / slitWidth = 11` mm there. -/
theorem diffraction_window_feature_size_split_witness :
    fresnelDiffractive
      { type := ApertureType.SLIT, diameter := 5,
        slitWidth := some 0.1 } (11 / 20000) 50 =
    claimDiffractive
      { type := ApertureType.SLIT, diameter := 5,
        slitWidth := some 0.1 } (11 / 20000) 50 := by
  exact (diffraction_window_feature_size_split
    { type := ApertureType.SLIT, diameter := 5, slitWidth := some 0.1 }
    (11 / 20000) 50).1 (Or.inl rfl) |>.2

/-! ## Grid resolution selection (src/utils/physics.ts lines 711-717)

`let N = 256; if (reqRes > 256) N = 512; if (reqRes > 512) N = 1024;
if (reqRes > 1024) N = 2048;` with `reqRes = physSize * pixelsPerMm`. -/

/-- The sequential reassignments of `N` in `generateKernel`
(src/utils/physics.ts lines 712-717). -/
def chooseN (reqRes : ℚ) : ℕ :=
  let n0 := 256
  let n1 := if 256 < reqRes then 512 else n0
  let n2 := if 512 < reqRes then 1024 else n1
  let n3 := if 1024 < reqRes then 2048 else n2
  n3

/-- Modelled from the claim (C8): start at 256 and double while the
required resolution exceeds the current N, stopping at the 2048 cap. The
fuel `4` is the length of the ladder 256→512→1024→2048. -/
def doubleStep (reqRes : ℚ) : ℕ → ℕ → ℕ
  | 0, n => n
  | Nat.succ fuel, n =>
    if n < 2048 ∧ (n : ℚ) < reqRes then doubleStep reqRes fuel (2 * n) else n

/-- Modelled from the claim (C8): the doubling ladder started at 256. -/
def doublingResolution (reqRes : ℚ) : ℕ :=
  doubleStep reqRes 4 256

/-- The resolution chosen by `generateKernel` for an aperture, wavelength,
focal length and target pixel density. -/
def generateKernelN (a : ApertureConfig) (lamMm z pixelsPerMm : ℚ) : ℕ :=
  chooseN (generateKernelPhysSize a lamMm z * pixelsPerMm)

/-- `chooseN` agrees with the doubling ladder and is capped at 2048. -/
theorem chooseN_eq_doubling (reqRes : ℚ) :
    chooseN reqRes = doublingResolution reqRes ∧ chooseN reqRes ≤ 2048 := by
  unfold chooseN doublingResolution
  rcases le_or_lt reqRes 256 with h1 | h1
  · have c1 : ¬(256 : ℚ) < reqRes := not_lt.mpr h1
    have c2 : ¬(512 : ℚ) < reqRes := not_lt.mpr (h1.trans (by norm_num))
    have c3 : ¬(1024 : ℚ) < reqRes := not_lt.mpr (h1.trans (by norm_num))
    norm_num [doubleStep, c1, c2, c3]
  · rcases le_or_lt reqRes 512 with h2 | h2
    · have c2 : ¬(512 : ℚ) < reqRes := not_lt.mpr h2
      have c3 : ¬(1024 : ℚ) < reqRes := not_lt.mpr (h2.trans (by norm_num))
      norm_num [doubleStep, h1, c2, c3]
    · rcases le_or_lt reqRes 1024 with h3 | h3
      · have c3 : ¬(1024 : ℚ) < reqRes := not_lt.mpr h3
        have h1' : (256 : ℚ) < reqRes := by linarith
        norm_num [doubleStep, h1', h2, c3]
      · have h1' : (256 : ℚ) < reqRes := by linarith
        have h2' : (512 : ℚ) < reqRes := by linarith
        norm_num [doubleStep, h1', h2', h3]

/-- C8. For every aperture descriptor, wavelength, focal length and pixel
density, the grid resolution chosen by `generateKernel` equals the ladder
that starts at 256 and doubles (256→512→1024→2048) while
`physicalWindowSize × pixelsPerMm` exceeds the current N, and it never
exceeds the 2048 cap — a total function, so the cap is a silent clamp and
not an error. -/
theorem grid_resolution_doubles_capped (a : ApertureConfig)
    (lamMm z pixelsPerMm : ℚ) :
    generateKernelN a lamMm z pixelsPerMm =
      doublingResolution (generateKernelPhysSize a lamMm z * pixelsPerMm) ∧
    generateKernelN a lamMm z pixelsPerMm ≤ 2048 := by
  unfold generateKernelN
  exact chooseN_eq_doubling _

/-! ## Seeded rasterization (src/utils/physics.ts lines 99-125, 312-316)

`drawAperture` builds a fresh closure
`seed = aperture.seed || 12345; random = () => { seed = (seed * 1664525 +
1013904223) % 4294967296; return seed / 4294967296 }` on every call — there
is no process-global generator — and `generateURA` derives the coded
aperture grid from the rank alone via a quadratic-residue test. We model
the generator as explicit state threading and the drawing of the URA and
RANDOM branches as lists of drawing operations. -/

/-- One step of the linear-congruential generator
(src/utils/physics.ts line 314). -/
def lcgNext (s : ℕ) : ℕ := (s * 1664525 + 1013904223) % 4294967296

/-- `aperture.seed || 12345` (src/utils/physics.ts line 312): an absent or
zero seed falls back to 12345. -/
def effectiveSeed (seed : Option ℕ) : ℕ :=
  match seed with
  | none => 12345
  | some s => if s = 0 then 12345 else s

/-- The generator state after `n` calls of `random()`, starting from the
descriptor's seed. -/
def lcgState (seed : Option ℕ) : ℕ → ℕ
  | 0 => effectiveSeed seed
  | n + 1 => lcgNext (lcgState seed n)

/-- The value returned by the `n`-th call of `random()` (0-indexed):
`seed / 4294967296` after the state update. -/
def randomValue (seed : Option ℕ) (n : ℕ) : ℚ :=
  (lcgState seed (n + 1) : ℚ) / 4294967296

/-- `isQuadraticResidue` (src/utils/physics.ts lines 103-109). The source
loops `x` from 1 to `m - 1`; including `x = 0` in the scan is harmless
because `0 * 0 % m = 0` never equals the nonzero `n` of that branch. -/
def isQuadraticResidue (n m : ℕ) : ℤ :=
  if n = 0 then 0
  else if (List.range m).any (fun x => x * x % m == n) then 1 else -1

/-- `generateURA` (src/utils/physics.ts lines 99-125): cell `(i, j)` of the
rank-`p` grid. A pure function of the rank. -/
def generateURA (rank i j : ℕ) : ℤ :=
  if i = 0 then 0
  else if j = 0 then 1
  else if isQuadraticResidue i rank * isQuadraticResidue j rank = 1 then 1
  else 0

/-- A canvas drawing operation issued by `drawAperture`. -/
inductive DrawOp where
  | fillRect (x y w h : ℝ)
  | circle (x y r : ℝ)

/-- The `fillRect` sequence of the URA branch of `drawAperture`
(src/utils/physics.ts lines 330-345). -/
noncomputable def uraOps (rank : ℕ) (diameter scale : ℝ) : List DrawOp :=
  let cellSize := diameter * scale / rank
  let offset := diameter * scale / 2
  (List.range rank).flatMap (fun i =>
    (List.range rank).filterMap (fun j =>
      if generateURA rank i j = 1 then
        some (DrawOp.fillRect (j * cellSize - offset) (i * cellSize - offset)
          cellSize cellSize)
      else none))

/-- The circle sequence of the RANDOM branch of `drawAperture`
(src/utils/physics.ts lines 675-685): dot `i` consumes the generator calls
`3i`, `3i+1`, `3i+2`. -/
noncomputable def randomDotOps (seed : Option ℕ) (count : ℕ)
    (rSpread rMinSize : ℝ) : List DrawOp :=
  (List.range count).map (fun i =>
    let r := rSpread * Real.sqrt ((randomValue seed (3 * i) : ℚ) : ℝ)
    let th := 2 * Real.pi * ((randomValue seed (3 * i + 1) : ℚ) : ℝ)
    let s := rMinSize * (0.5 + 1.5 * ((randomValue seed (3 * i + 2) : ℚ) : ℝ))
    DrawOp.circle (r * Real.cos th) (r * Real.sin th) s)

/-- Drawing operations issued by `drawAperture` for the two branches the
determinism claim exercises (URA and seeded random dots); the remaining
shape branches are not modelled here and yield `[]`. -/
noncomputable def drawApertureOps (a : ApertureConfig) (scale : ℝ) :
    List DrawOp :=
  match a.type with
  | ApertureType.URA => uraOps (jsOrNat a.uraRank 13) ((a.diameter : ℚ) : ℝ) scale
  | ApertureType.RANDOM =>
    randomDotOps a.seed (jsOrNat a.count 50)
      (((jsOr a.spread a.diameter : ℚ) : ℝ) * scale / 2)
      (((jsOrQ a.diameter 0.1 : ℚ) : ℝ) * scale / 4)
  | _ => []

/-- C9. The random values used by seeded variants come from the
linear-congruential generator `state ← (state·1664525 + 1013904223) mod 2³²`
initialized from the descriptor's seed field on each call: the state stream
obeys exactly that recurrence, starts at the descriptor's (defaulted) seed,
and the drawing-operation sequence is a function of the descriptor's fields
alone — two descriptors equal on the fields a branch reads produce
identical operation sequences (in particular the URA mask is untouched by
the seed, being a pure function of rank, diameter and scale). -/
theorem seeded_rasterization_deterministic :
    (∀ (seed : Option ℕ) (n : ℕ),
      lcgState seed (n + 1) =
        (lcgState seed n * 1664525 + 1013904223) % 4294967296) ∧
    (∀ seed, lcgState seed 0 = effectiveSeed seed) ∧
    (∀ (a b : ApertureConfig) (scale : ℝ),
      a.type = ApertureType.RANDOM → b.type = ApertureType.RANDOM →
      a.seed = b.seed → a.count = b.count → a.spread = b.spread →
      a.diameter = b.diameter →
      drawApertureOps a scale = drawApertureOps b scale) ∧
    (∀ (a b : ApertureConfig) (scale : ℝ),
      a.type = ApertureType.URA → b.type = ApertureType.URA →
      a.uraRank = b.uraRank → a.diameter = b.diameter →
      drawApertureOps a scale = drawApertureOps b scale) ∧
    (∀ rank i j, generateURA rank i j =
      if i = 0 then 0
      else if j = 0 then 1
      else if isQuadraticResidue i rank * isQuadraticResidue j rank = 1
      then 1 else 0) := by
  refine ⟨fun seed n => rfl, fun seed => rfl, ?_, ?_, fun rank i j => rfl⟩
  · intro a b scale ha hb hseed hcount hspread hdiam
    simp only [drawApertureOps, ha, hb, hseed, hcount, hspread, hdiam]
  · intro a b scale ha hb hrank hdiam
    simp only [drawApertureOps, ha, hb, hrank, hdiam]

/-- Witness for C9: two URA descriptors of rank 13 that differ only in
their seed rasterize to the identical operation sequence — the coded
aperture mask is bit-identical across runs and independent of the seed. -/
theorem seeded_rasterization_deterministic_witness :
    drawApertureOps
      { type := ApertureType.URA, diameter := 5, uraRank := some 13,
        seed := some 1 } 2 =
    drawApertureOps
      { type := ApertureType.URA, diameter := 5, uraRank := some 13,
        seed := some 999 } 2 :=
  seeded_rasterization_deterministic.2.2.2.1 _ _ 2 rfl rfl rfl rfl

/-! ## CPU worker image resizing (src/simulation.worker.ts lines 5-40,
src/utils/imageProcessing.ts lines 140-171)

The CPU worker resizes any source wider than 600 px to width 600 before
computing `pixelsPerMm` and generating kernels; `convolveImageRGB`
allocates its output with the (possibly resized) input's dimensions, and
vignetting and noise mutate that buffer in place, so the response carries
the reduced dimensions. -/

/-- JavaScript `Math.round`: floor of `x + 1/2`. -/
def jsMathRound (q : ℚ) : ℤ := Int.floor (q + 1 / 2)

/-- Output dimensions of `resizeImageData` (src/utils/imageProcessing.ts
lines 140-142): `scale = targetWidth / W`, `targetHeight =
Math.round(H * scale)`. The canvas resampling of pixel content is a host
primitive; the dimension arithmetic is the code's own. -/
def resizeDims (W H targetWidth : ℕ) : ℕ × ℕ :=
  (targetWidth, (jsMathRound ((H : ℚ) * ((targetWidth : ℚ) / (W : ℚ)))).toNat)

/-- Dimensions of `simInput` in the CPU worker
(src/simulation.worker.ts lines 9-13): resize to width 600 only when the
source is wider than 600. -/
def workerSimDims (W H : ℕ) : ℕ × ℕ :=
  if 600 < W then resizeDims W H 600 else (W, H)

/-- `convolveImageRGB` returns `new ImageData(width, height)` with its
input's dimensions (src/utils/imageProcessing.ts lines 48-49). -/
def convolveDims (d : ℕ × ℕ) : ℕ × ℕ := d

/-- Dimensions of the image posted back by the CPU worker: the convolved
`simInput`, mutated in place by vignetting/noise. -/
def workerResponseDims (W H : ℕ) : ℕ × ℕ := convolveDims (workerSimDims W H)

/-- `pixelsPerMm = simInput.width / camera.sensorWidth`
(src/simulation.worker.ts line 15), computed after the resize. -/
def workerPixelsPerMm (W H : ℕ) (sensorWidth : ℚ) : ℚ :=
  ((workerSimDims W H).1 : ℚ) / sensorWidth

/-- C10. A source wider than 600 px is resized to width 600 with the height
scaled proportionally and rounded, the response carries those reduced
dimensions (width strictly smaller, height no larger), and kernel
generation uses the resized width for its pixel density; a source of width
at most 600 is processed and returned at its original size. -/
theorem worker_resizes_wide_images (W H : ℕ) (sensorWidth : ℚ) :
    (600 < W →
      workerResponseDims W H =
        (600, (jsMathRound ((H : ℚ) * (600 / (W : ℚ)))).toNat) ∧
      (workerResponseDims W H).1 < W ∧
      (workerResponseDims W H).2 ≤ H ∧
      workerPixelsPerMm W H sensorWidth = 600 / sensorWidth) ∧
    (W ≤ 600 →
      workerResponseDims W H = (W, H) ∧
      workerPixelsPerMm W H sensorWidth = (W : ℚ) / sensorWidth) := by
  constructor
  · intro hW
    have hdims : workerSimDims W H =
        (600, (jsMathRound ((H : ℚ) * (600 / (W : ℚ)))).toNat) := by
      unfold workerSimDims resizeDims
      rw [if_pos hW]
      norm_num
    have hWq : (600 : ℚ) < (W : ℚ) := by exact_mod_cast hW
    have hq : (H : ℚ) * (600 / (W : ℚ)) ≤ (H : ℚ) := by
      apply mul_le_of_le_one_right (by positivity)
      rw [div_le_one (by linarith)]
      linarith
    have hfloor : jsMathRound ((H : ℚ) * (600 / (W : ℚ))) ≤ (H : ℤ) := by
      unfold jsMathRound
      by_contra hcon
      push_neg at hcon
      have hle : ((H : ℤ) + 1 : ℤ) ≤ Int.floor ((H : ℚ) * (600 / (W : ℚ)) + 1 / 2) := by
        omega
      have := Int.le_floor.mp hle
      push_cast at this
      linarith
    refine ⟨?_, ?_, ?_, ?_⟩
    · unfold workerResponseDims convolveDims
      rw [hdims]
    · unfold workerResponseDims convolveDims
      rw [hdims]
      exact hW
    · unfold workerResponseDims convolveDims
      rw [hdims]
      exact Int.toNat_le.mpr hfloor
    · unfold workerPixelsPerMm
      rw [hdims]
      norm_num
  · intro hW
    have hdims : workerSimDims W H = (W, H) := by
      unfold workerSimDims
      rw [if_neg (not_lt.mpr hW)]
    refine ⟨?_, ?_⟩
    · unfold workerResponseDims convolveDims
      rw [hdims]
    · unfold workerPixelsPerMm
      rw [hdims]

/-- Witness for C10: an 800×600 source is returned as 600×450
(`round(600 · 600/800) = 450`), and a 500×300 source keeps its size. -/
theorem worker_resizes_wide_images_witness :
    workerResponseDims 800 600 = (600, 450) ∧
    workerResponseDims 500 300 = (500, 300) := by
  constructor
  · have h := (worker_resizes_wide_images 800 600 36).1 (by norm_num)
    rw [h.1]
    norm_num [jsMathRound]
    rfl
  · exact ((worker_resizes_wide_images 500 300 36).2 (by norm_num)).1
